import Mathlib

/-!
Verification of the PDS Mentions Extractor harvesting core.

Shallow embedding of `src/harvest_highlights.py` and `src/query_solr.py`:
the pagination-and-merge harvest loop, its timeout-tolerance policy, the
accumulator merge, and the tenacity retry wrapper around the Solr query.
Network requests, sleeps, directory creation and the final file write are
modelled as an explicit event trace; the remote service is an environment
function mapping the index of each issued request to its outcome.
-/

/-- Exception classes raised by the transport and harvest layers, mirroring
the Python exception hierarchy that the code discriminates on.
`timeout` is `requests.exceptions.Timeout`; `connectionError` stands for any
other network-level `RequestException`; `httpError` is an
`requests.exceptions.HTTPError` carrying a real response (error status codes,
rate limit included); `valueError` is a Python `ValueError` (invalid
credential); `attributeError` is the `AttributeError` the malformed-body path
ends in — the synthetic `HTTPError` raised at `query_solr.py` line 92 has
`response = None`, is caught by the `HTTPError` handler at line 102, and
`e.response.status_code` at line 103 dereferences `None`; `ioError` is an
`IOError` while writing the output file. -/
inductive PyExc where
  | timeout
  | connectionError
  | httpError
  | valueError
  | attributeError
  | ioError
deriving Repr, DecidableEq

/-- In the `requests` library, `Timeout`, `ConnectionError` and `HTTPError`
are all subclasses of `RequestException`; `ValueError`, `AttributeError` and
`IOError` are not. -/
def isRequestException : PyExc → Bool
  | .timeout => true
  | .connectionError => true
  | .httpError => true
  | .valueError => false
  | .attributeError => false
  | .ioError => false

/-- `isinstance(e, Timeout)` for the modelled exception classes. -/
def isTimeoutExc : PyExc → Bool
  | .timeout => true
  | _ => false

/-- The tenacity predicate `retry_if_exception_type((Timeout, RequestException))`
from `harvest_highlights.py` line 34: retry when the exception is an instance
of `Timeout` or of `RequestException`. -/
def tenacityShouldRetry (e : PyExc) : Bool :=
  isTimeoutExc e || isRequestException e

/-- tenacity `wait_exponential(multiplier=2, min=4, max=60)`: the sleep after
the failed attempt numbered `attempt` (1-based) is `multiplier * 2 ^ attempt`
clamped into `[minW, maxW]`. -/
def waitExponential (multiplier minW maxW attempt : Nat) : Nat :=
  max minW (min (multiplier * 2 ^ attempt) maxW)

/-- A parsed JSON page body is abstract here; `_make_solr_query` returns it
unchanged, so the retry wrapper is modelled polymorphically over the payload.
`tenacityAttempts env k attempt` runs the decorated call starting at attempt
number `attempt` (1-based) with `k` further attempts allowed after the current
one (`stop_after_attempt(5)` with `reraise=True` is `k = 4`, `attempt = 1`).
`env n` is the outcome of the `n`-th attempt. It returns the list of backoff
sleeps performed and the final outcome. -/
def tenacityAttempts {α : Type} (env : Nat → Except PyExc α) :
    Nat → Nat → List Nat × Except PyExc α
  | 0, attempt => ([], env attempt)
  | k + 1, attempt =>
    match env attempt with
    | .ok a => ([], .ok a)
    | .error e =>
      if tenacityShouldRetry e then
        let w := waitExponential 2 4 60 attempt
        let r := tenacityAttempts env k (attempt + 1)
        (w :: r.1, r.2)
      else ([], .error e)

/-- The `@retry(stop=stop_after_attempt(5), wait=wait_exponential(multiplier=2,
min=4, max=60), retry=retry_if_exception_type((Timeout, RequestException)),
reraise=True)` decoration of `_make_solr_query`: at most 5 attempts, i.e. up to
4 retries after the first attempt. -/
def makeSolrQuery {α : Type} (env : Nat → Except PyExc α) :
    List Nat × Except PyExc α :=
  tenacityAttempts env 4 1

/-- The `source` sub-record attached to each accumulator entry
(`harvest_highlights.py` lines 136-145 and 171-180). -/
structure SourceRec where
  bibcode : String
  title : String
  author : String
  pubdate : String
  doctype : String
  property : String
  doi : Option String
  grant : Option String
deriving Repr, DecidableEq

/-- One document record of `response['docs']`: the identifier plus the
bibliographic fields the harvest loop copies out. -/
structure DocRec where
  id : String
  bibcode : String
  title : String
  author : String
  pubdate : String
  doctype : String
  property : String
  doi : Option String
  grant : Option String
deriving Repr, DecidableEq

/-- The `source` dict built from a document record. -/
def DocRec.toSource (d : DocRec) : SourceRec :=
  ⟨d.bibcode, d.title, d.author, d.pubdate, d.doctype, d.property, d.doi, d.grant⟩

/-- Highlight fragments for one document: field name to snippet list, as in the
Solr `highlighting` response. -/
abbrev Frags := List (String × List String)

/-- One accumulator value: the document's highlight fragments together with the
optional `source` key added by the harvest loop. -/
structure HLEntry where
  frags : Frags
  source : Option SourceRec
deriving Repr, DecidableEq

/-- One page of the Solr response: `response.numFound`, `response.docs` and the
`highlighting` map (modelled as an insertion-ordered association list, as a
Python dict is). -/
structure PageResult where
  numFound : Nat
  docs : List DocRec
  highlighting : List (String × Frags)
deriving Repr, DecidableEq

/-- The harvest accumulator (the Python `highlights` dict): an
insertion-ordered association list from document identifier to entry. -/
abbrev HAcc := List (String × HLEntry)

/-- Dict lookup: value of the first binding of key `k`. -/
def lookupA (acc : HAcc) (k : String) : Option HLEntry :=
  (acc.find? (fun p => p.1 == k)).map Prod.snd

/-- Dict membership test for key `k`. -/
def keyMem (acc : HAcc) (k : String) : Bool :=
  acc.any (fun p => p.1 == k)

/-- Python dict assignment `d[k] = v`: overwrite in place when the key is
present (keeping its position), append at the end otherwise. -/
def setA (acc : HAcc) (k : String) (v : HLEntry) : HAcc :=
  if keyMem acc k then acc.map (fun p => if p.1 == k then (k, v) else p)
  else acc ++ [(k, v)]

/-- `highlights.update(results_json['highlighting'])`: each binding of the
page's highlighting dict overwrites (or appends) the accumulator entry for its
key; the assigned value is the bare fragment dict, which carries no `source`
key. -/
def updateHighlighting (acc : HAcc) (hl : List (String × Frags)) : HAcc :=
  hl.foldl (fun a p => setA a p.1 ⟨p.2, none⟩) acc

/-- The per-document step of the source-attachment loop:
`if doc_id not in highlights: highlights[doc_id] = {}` followed by
`highlights[doc_id]['source'] = {...}`. -/
def addSource (acc : HAcc) (d : DocRec) : HAcc :=
  let e := (lookupA acc d.id).getD ⟨[], none⟩
  setA acc d.id { e with source := some d.toSource }

/-- Per-page processing of the harvest loop: merge the page's highlighting
dict, then attach a `source` sub-record for every document record on the page
(`harvest_highlights.py` lines 127-145 for the first page with `acc = []`, and
lines 162-180 for subsequent pages). -/
def processPage (acc : HAcc) (p : PageResult) : HAcc :=
  p.docs.foldl addSource (updateHighlighting acc p.highlighting)

/-- A Solr query parameter set, as built by `harvest_highlights`. -/
structure QueryParams where
  q : String
  fl : String
  hl : String
  hlFl : Option String
  hlSnippets : Option Nat
  hlFragsize : Option Nat
  rows : Nat
  start : Nat
  sort : String
deriving Repr, DecidableEq

/-- The dry-run query parameters (`harvest_highlights.py` lines 85-92):
5 rows, minimal field list, highlighting off. -/
def dryParams (qs : String) : QueryParams :=
  { q := qs
    fl := "author,title,pubyear,doi"
    hl := "false"
    hlFl := none
    hlSnippets := none
    hlFragsize := none
    rows := 5
    start := 0
    sort := "score desc" }

/-- The full-harvest field list (`harvest_highlights.py` lines 96-104). -/
def fullFieldList : String :=
  "abstract,ack,aff,aff_id,alternate_bibcode,alternate_title,arxiv_class," ++
  "author,author_count,author_norm,bibcode,bibgroup,bibstem,citation," ++
  "citation_count,cite_read_boost,classic_factor,comment,copyright,data," ++
  "database,date,doctype,doi,eid,entdate,entry_date,esources,facility," ++
  "first_author,first_author_norm,grant,grant_agencies,grant_id,id," ++
  "identifier,indexstamp,inst,isbn,issn,issue,keyword,keyword_norm," ++
  "keyword_schema,lang,links_data,nedid,nedtype,orcid_pub,orcid_other," ++
  "orcid_user,page,page_count,page_range,property,pub,pub_raw,pubdate," ++
  "pubnote,read_count,reference,simbid,title,vizier,volume,year"

/-- The full-harvest query parameters (`harvest_highlights.py` lines 94-112):
highlighting on, caller-chosen row count, offset 0. -/
def fullParams (qs : String) (rows : Nat) : QueryParams :=
  { q := qs
    fl := fullFieldList
    hl := "true"
    hlFl := some "body,abstract,ack,title"
    hlSnippets := some 4
    hlFragsize := some 100
    rows := rows
    start := 0
    sort := "score desc" }

/-- Observable actions of a harvest run, in order: a network request with its
parameter set, a `time.sleep` of the given number of seconds, the
`mkdir(parents=True, exist_ok=True)` on the output path's parent, and a
successful write of the output file. -/
inductive Ev where
  | request (p : QueryParams)
  | sleep (secs : Nat)
  | mkdirs (path : String)
  | write (path : String)
deriving Repr, DecidableEq

/-- State of the paging `while` loop of `harvest_highlights`: the page index,
the `consecutive_timeouts` counter, the index of the next request in the
environment, the accumulator, and the event trace so far. -/
structure LoopSt where
  page : Nat
  c : Nat
  reqIdx : Nat
  acc : HAcc
  trace : List Ev
deriving Repr

/-- How the paging loop ended: the `while` condition became false, the
consecutive-timeout threshold was hit (`break`), or a non-timeout exception
propagated (`raise`). -/
inductive LoopExit where
  | normal
  | timeoutAbort
  | hardFail (e : PyExc)
deriving Repr, DecidableEq

/-- Termination measure for the paging loop: each successful page strictly
reduces the first summand and each tolerated timeout the second. -/
def loopMeasure (maxQ : Nat) (st : LoopSt) : Nat :=
  (maxQ - st.page) * 4 + (3 - st.c)

/-- The paging `while` loop of `harvest_highlights` (lines 148-206).
`env n` is the outcome of the `n`-th request of the whole run (the first page
request was index 0). On success the counter resets, the page is merged, the
page index advances and the loop sleeps `2.0 + consecutive_timeouts * 1.0`
seconds (the counter having just been reset to zero). On a `Timeout` the
counter increments; at `max_consecutive_timeouts = 3` the loop breaks,
otherwise it sleeps `5.0 * consecutive_timeouts` seconds and retries the same
page offset. Any other exception aborts the loop (`raise`). -/
def runLoop (qs : String) (maxQ rows total : Nat)
    (env : Nat → Except PyExc PageResult) (st : LoopSt) : LoopSt × LoopExit :=
  if h : st.page < maxQ ∧ st.page * rows < total then
    let params := { fullParams qs rows with start := st.page * rows }
    match env st.reqIdx with
    | .ok p =>
      runLoop qs maxQ rows total env
        { page := st.page + 1
          c := 0
          reqIdx := st.reqIdx + 1
          acc := processPage st.acc p
          trace := st.trace ++ [.request params, .sleep 2] }
    | .error .timeout =>
      if 3 ≤ st.c + 1 then
        ({ st with
            c := st.c + 1
            reqIdx := st.reqIdx + 1
            trace := st.trace ++ [.request params] }, .timeoutAbort)
      else
        runLoop qs maxQ rows total env
          { st with
              c := st.c + 1
              reqIdx := st.reqIdx + 1
              trace := st.trace ++ [.request params, .sleep (5 * (st.c + 1))] }
    | .error e =>
      ({ st with
          reqIdx := st.reqIdx + 1
          trace := st.trace ++ [.request params] }, .hardFail e)
  else (st, .normal)
termination_by loopMeasure maxQ st
decreasing_by
  · simp only [loopMeasure]
    omega
  · simp only [loopMeasure]
    omega

/-- Step-indexed version of the paging loop, used to state that the loop always
terminates: `none` means the fuel ran out before the loop ended. -/
def runLoopFuel (qs : String) (maxQ rows total : Nat)
    (env : Nat → Except PyExc PageResult) :
    Nat → LoopSt → Option (LoopSt × LoopExit)
  | 0, _ => none
  | fuel + 1, st =>
    if st.page < maxQ ∧ st.page * rows < total then
      let params := { fullParams qs rows with start := st.page * rows }
      match env st.reqIdx with
      | .ok p =>
        runLoopFuel qs maxQ rows total env fuel
          { page := st.page + 1
            c := 0
            reqIdx := st.reqIdx + 1
            acc := processPage st.acc p
            trace := st.trace ++ [.request params, .sleep 2] }
      | .error .timeout =>
        if 3 ≤ st.c + 1 then
          some ({ st with
              c := st.c + 1
              reqIdx := st.reqIdx + 1
              trace := st.trace ++ [.request params] }, .timeoutAbort)
        else
          runLoopFuel qs maxQ rows total env fuel
            { st with
                c := st.c + 1
                reqIdx := st.reqIdx + 1
                trace := st.trace ++ [.request params, .sleep (5 * (st.c + 1))] }
      | .error e =>
        some ({ st with
            reqIdx := st.reqIdx + 1
            trace := st.trace ++ [.request params] }, .hardFail e)
    else some (st, .normal)

/-- Result of a whole `harvest_highlights` call: the event trace, the returned
or raised outcome, and the output file written (path and accumulator content,
serialized as JSON), if any. -/
structure HarvestResult where
  trace : List Ev
  outcome : Except PyExc Unit
  saved : Option (String × HAcc)
deriving Repr

/-- `harvest_highlights(query_string, save_path, max_num_queries,
max_num_rows)` (lines 61-226). `env n` is the outcome of the `n`-th request
issued by the run; `saveOk` is whether the final `json.dump` write succeeds
(an `IOError` is raised otherwise). The page-size precondition is checked
before anything else; the first request uses offset 0; in dry-run mode the
function returns right after the first request; otherwise the first page is
merged into a fresh accumulator and the paging loop runs from page 1, after
which the results are saved unless the loop ended in a hard failure. -/
def harvest_highlights (qs : String) (savePath : Option String)
    (maxQ maxRows : Nat) (env : Nat → Except PyExc PageResult)
    (saveOk : Bool) : HarvestResult :=
  if 2000 < maxRows then ⟨[], .error .valueError, none⟩
  else
    match savePath, env 0 with
    | none, .error e => ⟨[.request (dryParams qs)], .error e, none⟩
    | none, .ok _ => ⟨[.request (dryParams qs)], .ok (), none⟩
    | some _, .error e => ⟨[.request (fullParams qs maxRows)], .error e, none⟩
    | some path, .ok p0 =>
      let st0 : LoopSt :=
        ⟨1, 0, 1, processPage [] p0, [.request (fullParams qs maxRows)]⟩
      match runLoop qs maxQ maxRows p0.numFound env st0 with
      | (st, .hardFail e) => ⟨st.trace, .error e, none⟩
      | (st, _) =>
        if saveOk then
          ⟨st.trace ++ [.mkdirs path, .write path], .ok (), some (path, st.acc)⟩
        else ⟨st.trace ++ [.mkdirs path], .error .ioError, none⟩

/-- The offsets (`start` values) of the requests in a trace, in order. -/
def reqStarts (t : List Ev) : List Nat :=
  t.filterMap (fun e =>
    match e with
    | .request p => some p.start
    | _ => none)

/-- Number of successful output-file writes recorded in a trace. -/
def writeCount (t : List Ev) : Nat :=
  (t.filter (fun e =>
    match e with
    | .write _ => true
    | _ => false)).length

/-- When the `while` condition is false the loop returns immediately, leaving
the state untouched. -/
theorem runLoop_stop (qs : String) (maxQ rows total : Nat)
    (env : Nat → Except PyExc PageResult) (st : LoopSt)
    (h : ¬(st.page < maxQ ∧ st.page * rows < total)) :
    runLoop qs maxQ rows total env st = (st, .normal) := by
  rw [runLoop]
  simp [h]

/-- One successful iteration: the page is merged, the counter resets to zero,
the page index advances, and a 2-second inter-request sleep is recorded. -/
theorem runLoop_success (qs : String) (maxQ rows total : Nat)
    (env : Nat → Except PyExc PageResult) (st : LoopSt) (p : PageResult)
    (hg : st.page < maxQ ∧ st.page * rows < total)
    (he : env st.reqIdx = .ok p) :
    runLoop qs maxQ rows total env st =
      runLoop qs maxQ rows total env
        ⟨st.page + 1, 0, st.reqIdx + 1, processPage st.acc p,
          st.trace ++
            [.request { fullParams qs rows with start := st.page * rows },
             .sleep 2]⟩ := by
  rw [runLoop]
  simp [hg, he]

/-- A tolerated timeout: the counter increments and stays below the threshold,
a 5·counter backoff sleep is recorded, and the page index does not move, so the
next request retries the same offset. -/
theorem runLoop_timeout_retry (qs : String) (maxQ rows total : Nat)
    (env : Nat → Except PyExc PageResult) (st : LoopSt)
    (hg : st.page < maxQ ∧ st.page * rows < total)
    (he : env st.reqIdx = .error .timeout)
    (hc : st.c + 1 < 3) :
    runLoop qs maxQ rows total env st =
      runLoop qs maxQ rows total env
        { st with
            c := st.c + 1
            reqIdx := st.reqIdx + 1
            trace := st.trace ++
              [.request { fullParams qs rows with start := st.page * rows },
               .sleep (5 * (st.c + 1))] } := by
  rw [runLoop]
  simp [hg, he]
  omega

/-- The third consecutive timeout: the loop breaks with the accumulator
preserved. -/
theorem runLoop_timeout_abort (qs : String) (maxQ rows total : Nat)
    (env : Nat → Except PyExc PageResult) (st : LoopSt)
    (hg : st.page < maxQ ∧ st.page * rows < total)
    (he : env st.reqIdx = .error .timeout)
    (hc : 3 ≤ st.c + 1) :
    runLoop qs maxQ rows total env st =
      ({ st with
          c := st.c + 1
          reqIdx := st.reqIdx + 1
          trace := st.trace ++
            [.request { fullParams qs rows with start := st.page * rows }] },
        .timeoutAbort) := by
  rw [runLoop]
  simp [hg, he, hc]

/-- A non-timeout exception aborts the loop at once with that exception. -/
theorem runLoop_hardFail (qs : String) (maxQ rows total : Nat)
    (env : Nat → Except PyExc PageResult) (st : LoopSt) (e : PyExc)
    (hg : st.page < maxQ ∧ st.page * rows < total)
    (he : env st.reqIdx = .error e)
    (hne : e ≠ .timeout) :
    runLoop qs maxQ rows total env st =
      ({ st with
          reqIdx := st.reqIdx + 1
          trace := st.trace ++
            [.request { fullParams qs rows with start := st.page * rows }] },
        .hardFail e) := by
  rw [runLoop]
  cases e with
  | timeout => exact absurd rfl hne
  | connectionError => simp [hg, he]
  | httpError => simp [hg, he]
  | valueError => simp [hg, he]
  | attributeError => simp [hg, he]
  | ioError => simp [hg, he]

/-- The keys of the accumulator, in insertion order. -/
def accKeys (acc : HAcc) : List String :=
  acc.map Prod.fst

/-- Identifiers appearing on a page, either as a highlighting key or as a
document record identifier. -/
def pageIds (p : PageResult) : List String :=
  p.highlighting.map Prod.fst ++ p.docs.map DocRec.id

theorem keyMem_iff (acc : HAcc) (k : String) :
    keyMem acc k = true ↔ k ∈ accKeys acc := by
  simp only [keyMem, accKeys, List.any_eq_true, List.mem_map, beq_iff_eq]

theorem setA_cons_ne (a : String × HLEntry) (t : HAcc) (k : String)
    (v : HLEntry) (h : ¬ a.1 = k) :
    setA (a :: t) k v = a :: setA t k v := by
  have hb : (a.1 == k) = false := by
    simp [beq_iff_eq, h]
  have hcons : keyMem (a :: t) k = keyMem t k := by
    simp [keyMem, List.any_cons, hb]
  by_cases hm : keyMem t k = true
  · simp [setA, hcons, hm, hb, h]
  · simp [setA, hcons, hm, hb, h]

theorem lookupA_map_overwrite_ne (t : HAcc) (k k' : String) (v : HLEntry)
    (h : ¬ k' = k) :
    lookupA (t.map (fun p => if p.1 == k then (k, v) else p)) k' =
      lookupA t k' := by
  induction t with
  | nil => rfl
  | cons a t ih =>
    simp only [List.map_cons, lookupA, List.find?]
    by_cases ha : a.1 = k
    · simp only [ha, beq_self_eq_true, if_pos]
      have hkk : (k == k') = false := by
        simp [beq_iff_eq]
        intro hc
        exact h hc.symm
      have hak' : (a.1 == k') = false := by
        simp [beq_iff_eq, ha]
        intro hc
        exact h hc.symm
      simp only [hkk, hak']
      exact ih
    · have hab : (a.1 == k) = false := by simp [beq_iff_eq, ha]
      simp only [hab, Bool.false_eq_true, if_false]
      by_cases hk' : a.1 = k'
      · simp [hk']
      · have hab' : (a.1 == k') = false := by simp [beq_iff_eq, hk']
        simp only [hab']
        exact ih

/-- Dict assignment then lookup: the assigned key reads back the new value and
every other key is untouched. -/
theorem lookupA_setA (acc : HAcc) (k : String) (v : HLEntry) (k' : String) :
    lookupA (setA acc k v) k' = if k' = k then some v else lookupA acc k' := by
  induction acc with
  | nil =>
    simp only [setA, keyMem, List.any_nil, Bool.false_eq_true, if_false,
      List.nil_append, lookupA, List.find?]
    by_cases h : k' = k
    · simp [h]
    · have : (k == k') = false := by
        simp [beq_iff_eq]
        intro hc
        exact h hc.symm
      simp [h, this]
  | cons a t ih =>
    by_cases ha : a.1 = k
    · have hmem : keyMem (a :: t) k = true := by
        simp [keyMem, List.any_cons, ha]
      simp only [setA, hmem, if_pos, List.map_cons]
      simp only [ha, beq_self_eq_true, if_pos]
      by_cases h : k' = k
      · subst h
        simp [lookupA, List.find?]
      · have hkk : (k == k') = false := by
          simp [beq_iff_eq]
          intro hc
          exact h hc.symm
        simp only [lookupA, List.find?, hkk, if_neg h]
        have := lookupA_map_overwrite_ne t k k' v h
        simp only [lookupA] at this
        rw [this]
        have hak' : (a.1 == k') = false := by
          simp [beq_iff_eq, ha]
          intro hc
          exact h hc.symm
        simp [lookupA, List.find?, hak']
    · rw [setA_cons_ne a t k v ha]
      by_cases hk' : a.1 = k'
      · have hak' : (a.1 == k') = true := by simp [beq_iff_eq, hk']
        simp only [lookupA, List.find?, hak']
        have : ¬ k' = k := fun hc => ha (hk'.trans hc)
        simp [this]
      · have hak' : (a.1 == k') = false := by simp [beq_iff_eq, hk']
        simp only [lookupA, List.find?, hak']
        exact ih

/-- Dict assignment preserves the key list when the key is present and appends
it otherwise. -/
theorem accKeys_setA (acc : HAcc) (k : String) (v : HLEntry) :
    accKeys (setA acc k v) =
      if keyMem acc k then accKeys acc else accKeys acc ++ [k] := by
  by_cases h : keyMem acc k = true
  · simp only [setA, h, if_pos, accKeys, List.map_map]
    refine List.map_congr_left ?_
    intro p _
    by_cases hp : p.1 = k
    · simp [Function.comp, hp]
    · have : (p.1 == k) = false := by simp [beq_iff_eq, hp]
      simp [Function.comp, this]
  · simp only [setA, h]
    simp only [Bool.false_eq_true, if_false, accKeys, List.map_append,
      List.map_cons, List.map_nil]

theorem mem_accKeys_setA (acc : HAcc) (k : String) (v : HLEntry) (k' : String) :
    k' ∈ accKeys (setA acc k v) ↔ k' ∈ accKeys acc ∨ k' = k := by
  rw [accKeys_setA]
  by_cases h : keyMem acc k = true
  · simp only [h, if_pos]
    constructor
    · exact Or.inl
    · rintro (hm | he)
      · exact hm
      · rw [he]
        exact (keyMem_iff acc k).mp h
  · simp [h]

theorem nodup_accKeys_setA (acc : HAcc) (k : String) (v : HLEntry)
    (h : (accKeys acc).Nodup) : (accKeys (setA acc k v)).Nodup := by
  rw [accKeys_setA]
  by_cases hm : keyMem acc k = true
  · simp [hm, h]
  · simp only [hm, Bool.false_eq_true, if_false]
    rw [List.nodup_append]
    refine ⟨h, List.nodup_singleton k, ?_⟩
    intro x hx hxk
    rw [List.mem_singleton] at hxk
    exact hm ((keyMem_iff acc k).mpr (hxk ▸ hx))

theorem lookupA_updateHighlighting_not_mem (hl : List (String × Frags))
    (acc : HAcc) (k : String) (h : k ∉ hl.map Prod.fst) :
    lookupA (updateHighlighting acc hl) k = lookupA acc k := by
  induction hl generalizing acc with
  | nil => rfl
  | cons a t ih =>
    simp only [List.map_cons, List.mem_cons, not_or] at h
    simp only [updateHighlighting, List.foldl_cons]
    rw [show (t.foldl (fun a p => setA a p.1 ⟨p.2, none⟩)
        (setA acc a.1 ⟨a.2, none⟩)) = updateHighlighting (setA acc a.1 ⟨a.2, none⟩) t from rfl]
    rw [ih _ h.2, lookupA_setA]
    exact if_neg h.1

/-- After merging a page's highlighting dict, a key of that dict reads back the
page's fragments with no `source` attached (the dict value overwrites the whole
entry). -/
theorem lookupA_updateHighlighting (hl : List (String × Frags)) (acc : HAcc)
    (k : String) (f : Frags) (hnd : (hl.map Prod.fst).Nodup)
    (hmem : (k, f) ∈ hl) :
    lookupA (updateHighlighting acc hl) k = some ⟨f, none⟩ := by
  induction hl generalizing acc with
  | nil => cases hmem
  | cons a t ih =>
    simp only [List.map_cons, List.nodup_cons] at hnd
    simp only [updateHighlighting, List.foldl_cons]
    rw [show (t.foldl (fun a p => setA a p.1 ⟨p.2, none⟩)
        (setA acc a.1 ⟨a.2, none⟩)) = updateHighlighting (setA acc a.1 ⟨a.2, none⟩) t from rfl]
    rcases List.mem_cons.mp hmem with he | ht
    · have hk : a.1 = k := by rw [← he]
      have hf : a.2 = f := by rw [← he]
      have hnm : k ∉ t.map Prod.fst := hk ▸ hnd.1
      rw [lookupA_updateHighlighting_not_mem t _ k hnm, lookupA_setA]
      simp [hk, hf]
    · exact ih _ hnd.2 ht

theorem mem_accKeys_updateHighlighting (hl : List (String × Frags)) (acc : HAcc)
    (k : String) (h : k ∈ accKeys (updateHighlighting acc hl)) :
    k ∈ accKeys acc ∨ k ∈ hl.map Prod.fst := by
  induction hl generalizing acc with
  | nil => exact Or.inl h
  | cons a t ih =>
    simp only [updateHighlighting, List.foldl_cons] at h
    rcases ih (setA acc a.1 ⟨a.2, none⟩) h with hm | hm
    · rcases (mem_accKeys_setA acc a.1 ⟨a.2, none⟩ k).mp hm with hm' | hm'
      · exact Or.inl hm'
      · exact Or.inr (by simp [hm'])
    · exact Or.inr (by simp [hm])

theorem nodup_accKeys_updateHighlighting (hl : List (String × Frags))
    (acc : HAcc) (h : (accKeys acc).Nodup) :
    (accKeys (updateHighlighting acc hl)).Nodup := by
  induction hl generalizing acc with
  | nil => exact h
  | cons a t ih =>
    simp only [updateHighlighting, List.foldl_cons]
    exact ih _ (nodup_accKeys_setA _ _ _ h)

theorem lookupA_addSource_self (acc : HAcc) (d : DocRec) :
    lookupA (addSource acc d) d.id =
      some ⟨((lookupA acc d.id).getD ⟨[], none⟩).frags, some d.toSource⟩ := by
  simp only [addSource]
  rw [lookupA_setA]
  simp

theorem lookupA_addSource_ne (acc : HAcc) (d : DocRec) (k : String)
    (h : ¬ k = d.id) :
    lookupA (addSource acc d) k = lookupA acc k := by
  simp only [addSource]
  rw [lookupA_setA]
  exact if_neg h

theorem lookupA_foldl_addSource_not_mem (docs : List DocRec) (acc : HAcc)
    (k : String) (h : k ∉ docs.map DocRec.id) :
    lookupA (docs.foldl addSource acc) k = lookupA acc k := by
  induction docs generalizing acc with
  | nil => rfl
  | cons d t ih =>
    simp only [List.map_cons, List.mem_cons, not_or] at h
    simp only [List.foldl_cons]
    rw [ih _ h.2, lookupA_addSource_ne acc d k h.1]

/-- After the source-attachment loop, every listed document (with per-page
unique identifiers) reads back an entry whose fragments are whatever the
accumulator held before the loop and whose `source` is that document's
bibliographic record. -/
theorem lookupA_foldl_addSource (docs : List DocRec) (acc : HAcc) (d : DocRec)
    (hnd : (docs.map DocRec.id).Nodup) (hmem : d ∈ docs) :
    lookupA (docs.foldl addSource acc) d.id =
      some ⟨((lookupA acc d.id).getD ⟨[], none⟩).frags, some d.toSource⟩ := by
  induction docs generalizing acc with
  | nil => cases hmem
  | cons d0 t ih =>
    simp only [List.map_cons, List.nodup_cons] at hnd
    simp only [List.foldl_cons]
    rcases List.mem_cons.mp hmem with he | ht
    · subst he
      rw [lookupA_foldl_addSource_not_mem t _ d.id hnd.1]
      exact lookupA_addSource_self acc d
    · have hne : ¬ d.id = d0.id := by
        intro hc
        exact hnd.1 (hc ▸ List.mem_map_of_mem DocRec.id ht)
      rw [ih (addSource acc d0) hnd.2 ht, lookupA_addSource_ne acc d0 d.id hne]

theorem mem_accKeys_foldl_addSource (docs : List DocRec) (acc : HAcc)
    (k : String) (h : k ∈ accKeys (docs.foldl addSource acc)) :
    k ∈ accKeys acc ∨ k ∈ docs.map DocRec.id := by
  induction docs generalizing acc with
  | nil => exact Or.inl h
  | cons d t ih =>
    simp only [List.foldl_cons] at h
    rcases ih (addSource acc d) h with hm | hm
    · simp only [addSource] at hm
      rcases (mem_accKeys_setA acc d.id _ k).mp hm with hm' | hm'
      · exact Or.inl hm'
      · exact Or.inr (by simp [hm'])
    · exact Or.inr (by simp [hm])

theorem nodup_accKeys_foldl_addSource (docs : List DocRec) (acc : HAcc)
    (h : (accKeys acc).Nodup) : (accKeys (docs.foldl addSource acc)).Nodup := by
  induction docs generalizing acc with
  | nil => exact h
  | cons d t ih =>
    simp only [List.foldl_cons]
    exact ih _ (nodup_accKeys_setA _ _ _ h)

theorem nodup_accKeys_processPage (acc : HAcc) (p : PageResult)
    (h : (accKeys acc).Nodup) : (accKeys (processPage acc p)).Nodup :=
  nodup_accKeys_foldl_addSource _ _ (nodup_accKeys_updateHighlighting _ _ h)

theorem mem_accKeys_processPage (acc : HAcc) (p : PageResult) (k : String)
    (h : k ∈ accKeys (processPage acc p)) :
    k ∈ accKeys acc ∨ k ∈ pageIds p := by
  rcases mem_accKeys_foldl_addSource _ _ _ h with hm | hm
  · rcases mem_accKeys_updateHighlighting _ _ _ hm with hm' | hm'
    · exact Or.inl hm'
    · exact Or.inr (by simp [pageIds, hm'])
  · exact Or.inr (by simp [pageIds, hm])

theorem nodup_accKeys_foldl_processPage (pages : List PageResult) (acc : HAcc)
    (h : (accKeys acc).Nodup) :
    (accKeys (pages.foldl processPage acc)).Nodup := by
  induction pages generalizing acc with
  | nil => exact h
  | cons p t ih =>
    simp only [List.foldl_cons]
    exact ih _ (nodup_accKeys_processPage _ _ h)

theorem mem_accKeys_foldl_processPage (pages : List PageResult) (acc : HAcc)
    (k : String) (h : k ∈ accKeys (pages.foldl processPage acc)) :
    k ∈ accKeys acc ∨ ∃ p ∈ pages, k ∈ pageIds p := by
  induction pages generalizing acc with
  | nil => exact Or.inl h
  | cons p t ih =>
    simp only [List.foldl_cons] at h
    rcases ih (processPage acc p) h with hm | hm
    · rcases mem_accKeys_processPage _ _ _ hm with hm' | hm'
      · exact Or.inl hm'
      · exact Or.inr ⟨p, by simp, hm'⟩
    · obtain ⟨p', hp', hk'⟩ := hm
      exact Or.inr ⟨p', by simp [hp'], hk'⟩

/-- An event the paging loop itself can emit: a request or a sleep (never a
directory creation or a file write). -/
def loopEv (e : Ev) : Prop :=
  (∃ p, e = Ev.request p) ∨ (∃ s, e = Ev.sleep s)

/-- The paging loop only ever appends request and sleep events to the trace. -/
theorem runLoop_trace_extends (qs : String) (maxQ rows total : Nat)
    (env : Nat → Except PyExc PageResult) :
    ∀ n st, loopMeasure maxQ st ≤ n →
      ∃ ext, (runLoop qs maxQ rows total env st).1.trace = st.trace ++ ext
        ∧ ∀ e ∈ ext, loopEv e := by
  intro n
  induction n with
  | zero =>
    intro st hm
    have hg : ¬(st.page < maxQ ∧ st.page * rows < total) := by
      simp only [loopMeasure] at hm
      omega
    rw [runLoop_stop _ _ _ _ _ _ hg]
    exact ⟨[], by simp⟩
  | succ n ih =>
    intro st hm
    by_cases hg : st.page < maxQ ∧ st.page * rows < total
    · simp only [loopMeasure] at hm
      cases he : env st.reqIdx with
      | ok p =>
        rw [runLoop_success _ _ _ _ _ _ _ hg he]
        have hmeas : loopMeasure maxQ
            ⟨st.page + 1, 0, st.reqIdx + 1, processPage st.acc p,
              st.trace ++
                [.request { fullParams qs rows with start := st.page * rows },
                 .sleep 2]⟩ ≤ n := by
          show (maxQ - (st.page + 1)) * 4 + (3 - 0) ≤ n
          omega
        obtain ⟨ext, h1, h2⟩ := ih _ hmeas
        refine ⟨[Ev.request { fullParams qs rows with start := st.page * rows },
            Ev.sleep 2] ++ ext, ?_, ?_⟩
        · rw [h1, List.append_assoc]
        · intro e hme
          rcases List.mem_append.mp hme with hm2 | hm2
          · rcases List.mem_cons.mp hm2 with h3 | h3
            · exact Or.inl ⟨_, h3⟩
            · rw [List.mem_singleton] at h3
              exact Or.inr ⟨2, h3⟩
          · exact h2 e hm2
      | error e =>
        cases e with
        | timeout =>
          by_cases hc : 3 ≤ st.c + 1
          · rw [runLoop_timeout_abort _ _ _ _ _ _ hg he hc]
            refine ⟨[Ev.request
                { fullParams qs rows with start := st.page * rows }],
              rfl, ?_⟩
            intro e hme
            rw [List.mem_singleton] at hme
            exact Or.inl ⟨_, hme⟩
          · rw [runLoop_timeout_retry _ _ _ _ _ _ hg he (by omega)]
            have hmeas : loopMeasure maxQ
                { st with
                    c := st.c + 1
                    reqIdx := st.reqIdx + 1
                    trace := st.trace ++
                      [.request
                          { fullParams qs rows with start := st.page * rows },
                       .sleep (5 * (st.c + 1))] } ≤ n := by
              show (maxQ - st.page) * 4 + (3 - (st.c + 1)) ≤ n
              omega
            obtain ⟨ext, h1, h2⟩ := ih _ hmeas
            refine ⟨[Ev.request { fullParams qs rows with start := st.page * rows },
                Ev.sleep (5 * (st.c + 1))] ++ ext, ?_, ?_⟩
            · rw [h1, List.append_assoc]
            · intro e hme
              rcases List.mem_append.mp hme with hm2 | hm2
              · rcases List.mem_cons.mp hm2 with h3 | h3
                · exact Or.inl ⟨_, h3⟩
                · rw [List.mem_singleton] at h3
                  exact Or.inr ⟨_, h3⟩
              · exact h2 e hm2
        | connectionError =>
          rw [runLoop_hardFail _ _ _ _ _ _ _ hg he (by decide)]
          refine ⟨[Ev.request { fullParams qs rows with start := st.page * rows }],
            rfl, ?_⟩
          intro e hme
          rw [List.mem_singleton] at hme
          exact Or.inl ⟨_, hme⟩
        | httpError =>
          rw [runLoop_hardFail _ _ _ _ _ _ _ hg he (by decide)]
          refine ⟨[Ev.request { fullParams qs rows with start := st.page * rows }],
            rfl, ?_⟩
          intro e hme
          rw [List.mem_singleton] at hme
          exact Or.inl ⟨_, hme⟩
        | valueError =>
          rw [runLoop_hardFail _ _ _ _ _ _ _ hg he (by decide)]
          refine ⟨[Ev.request { fullParams qs rows with start := st.page * rows }],
            rfl, ?_⟩
          intro e hme
          rw [List.mem_singleton] at hme
          exact Or.inl ⟨_, hme⟩
        | attributeError =>
          rw [runLoop_hardFail _ _ _ _ _ _ _ hg he (by decide)]
          refine ⟨[Ev.request { fullParams qs rows with start := st.page * rows }],
            rfl, ?_⟩
          intro e hme
          rw [List.mem_singleton] at hme
          exact Or.inl ⟨_, hme⟩
        | ioError =>
          rw [runLoop_hardFail _ _ _ _ _ _ _ hg he (by decide)]
          refine ⟨[Ev.request { fullParams qs rows with start := st.page * rows }],
            rfl, ?_⟩
          intro e hme
          rw [List.mem_singleton] at hme
          exact Or.inl ⟨_, hme⟩
    · rw [runLoop_stop _ _ _ _ _ _ hg]
      exact ⟨[], by simp⟩

theorem reqStarts_append (a b : List Ev) :
    reqStarts (a ++ b) = reqStarts a ++ reqStarts b :=
  List.filterMap_append _ _ _

/-- When every request succeeds, the offsets the loop requests starting from
page index `st.page` are `st.page * rows, (st.page + 1) * rows, ...` for the
consecutive page indices below the page ceiling whose cumulative row count is
still below the total. -/
theorem runLoop_allOk_starts (qs : String) (maxQ rows total : Nat)
    (pages : Nat → PageResult) :
    ∀ n st, maxQ - st.page ≤ n →
      reqStarts ((runLoop qs maxQ rows total
          (fun k => .ok (pages k)) st).1.trace)
        = reqStarts st.trace
          ++ ((List.range' st.page (maxQ - st.page)).takeWhile
              (fun k => decide (k * rows < total))).map (· * rows) := by
  intro n
  induction n with
  | zero =>
    intro st h
    have h0 : maxQ - st.page = 0 := Nat.le_zero.mp h
    have hg : ¬(st.page < maxQ ∧ st.page * rows < total) := by omega
    rw [runLoop_stop _ _ _ _ _ _ hg, h0]
    simp [List.range']
  | succ n ih =>
    intro st h
    by_cases hg : st.page < maxQ ∧ st.page * rows < total
    · rw [runLoop_success _ _ _ _ _ _ (pages st.reqIdx) hg rfl]
      rw [ih _ (by show maxQ - (st.page + 1) ≤ n; omega)]
      have hr : maxQ - st.page = (maxQ - (st.page + 1)) + 1 := by omega
      rw [hr, List.range'_succ, List.takeWhile_cons,
        if_pos (by simpa using hg.2)]
      rw [reqStarts_append]
      have hreq : reqStarts
          [Ev.request { fullParams qs rows with start := st.page * rows },
           Ev.sleep 2] = [st.page * rows] := rfl
      rw [hreq, List.map_cons, List.append_assoc]
      rfl
    · rw [runLoop_stop _ _ _ _ _ _ hg]
      rcases Nat.lt_or_ge st.page maxQ with hlt | hge
      · have hnt : ¬ st.page * rows < total := fun hc => hg ⟨hlt, hc⟩
        have hr : maxQ - st.page = (maxQ - (st.page + 1)) + 1 := by omega
        rw [hr, List.range'_succ, List.takeWhile_cons]
        simp [hnt]
      · have h0 : maxQ - st.page = 0 := by omega
        rw [h0]
        simp [List.range']

/-- With the termination measure as fuel, the step-indexed loop reaches the
same result as the loop itself: the paging loop always terminates. -/
theorem runLoopFuel_adequate (qs : String) (maxQ rows total : Nat)
    (env : Nat → Except PyExc PageResult) :
    ∀ n st, loopMeasure maxQ st < n →
      runLoopFuel qs maxQ rows total env n st
        = some (runLoop qs maxQ rows total env st) := by
  intro n
  induction n with
  | zero =>
    intro st h
    exact absurd h (Nat.not_lt_zero _)
  | succ n ih =>
    intro st h
    simp only [loopMeasure] at h
    by_cases hg : st.page < maxQ ∧ st.page * rows < total
    · cases he : env st.reqIdx with
      | ok p =>
        rw [runLoop_success _ _ _ _ _ _ _ hg he]
        show (if st.page < maxQ ∧ st.page * rows < total then _ else _) = _
        rw [if_pos hg, he]
        exact ih _ (by show (maxQ - (st.page + 1)) * 4 + (3 - 0) < n; omega)
      | error e =>
        cases e with
        | timeout =>
          by_cases hc : 3 ≤ st.c + 1
          · rw [runLoop_timeout_abort _ _ _ _ _ _ hg he hc]
            show (if st.page < maxQ ∧ st.page * rows < total then _ else _) = _
            rw [if_pos hg, he]
            simp only [if_pos hc]
          · rw [runLoop_timeout_retry _ _ _ _ _ _ hg he (by omega)]
            show (if st.page < maxQ ∧ st.page * rows < total then _ else _) = _
            rw [if_pos hg, he]
            simp only [if_neg hc]
            exact ih _ (by show (maxQ - st.page) * 4 + (3 - (st.c + 1)) < n; omega)
        | connectionError =>
          rw [runLoop_hardFail _ _ _ _ _ _ _ hg he (by decide)]
          show (if st.page < maxQ ∧ st.page * rows < total then _ else _) = _
          rw [if_pos hg, he]
        | httpError =>
          rw [runLoop_hardFail _ _ _ _ _ _ _ hg he (by decide)]
          show (if st.page < maxQ ∧ st.page * rows < total then _ else _) = _
          rw [if_pos hg, he]
        | valueError =>
          rw [runLoop_hardFail _ _ _ _ _ _ _ hg he (by decide)]
          show (if st.page < maxQ ∧ st.page * rows < total then _ else _) = _
          rw [if_pos hg, he]
        | attributeError =>
          rw [runLoop_hardFail _ _ _ _ _ _ _ hg he (by decide)]
          show (if st.page < maxQ ∧ st.page * rows < total then _ else _) = _
          rw [if_pos hg, he]
        | ioError =>
          rw [runLoop_hardFail _ _ _ _ _ _ _ hg he (by decide)]
          show (if st.page < maxQ ∧ st.page * rows < total then _ else _) = _
          rw [if_pos hg, he]
    · rw [runLoop_stop _ _ _ _ _ _ hg]
      show (if st.page < maxQ ∧ st.page * rows < total then _ else _) = _
      rw [if_neg hg]

/-- Cumulative row counts grow with the page index, so the truncation
predicate is downward closed and taking the leading true segment is the same
as filtering. -/
theorem takeWhile_range'_eq_filter (rows total : Nat) :
    ∀ m p, ((List.range' p m).takeWhile (fun k => decide (k * rows < total)))
      = (List.range' p m).filter (fun k => decide (k * rows < total)) := by
  intro m
  induction m with
  | zero => intro p; rfl
  | succ m ih =>
    intro p
    rw [List.range'_succ, List.takeWhile_cons]
    by_cases hp : p * rows < total
    · rw [if_pos (by simpa using hp), List.filter_cons_of_pos (by simpa using hp)]
      rw [ih (p + 1)]
    · rw [if_neg (by simpa using hp), List.filter_cons_of_neg (by simpa using hp)]
      rw [List.filter_eq_nil_iff.mpr]
      intro a ha
      rw [List.mem_range'_1] at ha
      have : total ≤ a * rows :=
        le_trans (Nat.not_lt.mp hp) (Nat.mul_le_mul_right rows (by omega))
      simpa using Nat.not_lt.mpr this

/-- Splitting the first page out of the requested-offset formula. -/
theorem filter_range_offsets (rows total maxQ : Nat) (h : 1 ≤ maxQ) :
    (List.range maxQ).filter (fun k => decide (k = 0 ∨ k * rows < total))
      = 0 :: (List.range' 1 (maxQ - 1)).filter
          (fun k => decide (k * rows < total)) := by
  rw [List.range_eq_range' maxQ]
  have hm : maxQ = (maxQ - 1) + 1 := by omega
  rw [hm, List.range'_succ, List.filter_cons_of_pos (by simp)]
  congr 1
  refine List.filter_congr ?_
  intro a ha
  rw [List.mem_range'_1] at ha
  simp only [decide_eq_decide]
  have : ¬ a = 0 := by omega
  tauto

theorem waitExponential_bounds (mult a : Nat) :
    4 ≤ waitExponential mult 4 60 a ∧ waitExponential mult 4 60 a ≤ 60 :=
  ⟨Nat.le_max_left _ _, Nat.max_le.mpr ⟨by omega, Nat.min_le_right _ _⟩⟩

/-- C9: with no destination path, the harvest issues exactly one request, with
the small fixed row count 5, highlighting disabled and the minimal field list;
it returns normally and writes no output file, whatever the page content and
total match count. -/
theorem c9_dry_run (qs : String) (maxQ maxRows : Nat)
    (env : Nat → Except PyExc PageResult) (saveOk : Bool) (p0 : PageResult)
    (hrows : maxRows ≤ 2000) (henv : env 0 = .ok p0) :
    harvest_highlights qs none maxQ maxRows env saveOk
      = ⟨[.request (dryParams qs)], .ok (), none⟩
    ∧ (dryParams qs).rows = 5
    ∧ (dryParams qs).hl = "false"
    ∧ (dryParams qs).fl = "author,title,pubyear,doi"
    ∧ (dryParams qs).start = 0 := by
  refine ⟨?_, rfl, rfl, rfl, rfl⟩
  simp [harvest_highlights, Nat.not_lt.mpr hrows, henv]

/-- C10: a timeout on the very first page request (after the transport-level
retries are exhausted) is a hard failure: it propagates to the caller, no
output file is produced, and the consecutive-timeout tolerance of the paging
loop never applies to it. -/
theorem c10_first_request_timeout (qs path : String) (maxQ maxRows : Nat)
    (env : Nat → Except PyExc PageResult) (saveOk : Bool)
    (hrows : maxRows ≤ 2000) (henv : env 0 = .error .timeout) :
    harvest_highlights qs (some path) maxQ maxRows env saveOk
      = ⟨[.request (fullParams qs maxRows)], .error .timeout, none⟩ := by
  simp [harvest_highlights, Nat.not_lt.mpr hrows, henv]

/-- C3 counterexample: a status-code `HTTPError` (a 4xx/5xx outside the
session retry set, or a rate-limit response) is NOT propagated on the first
attempt: because `HTTPError` is a subclass of `RequestException`, the tenacity
decoration retries it, performing four backoff sleeps before propagating the
final failure. -/
theorem c3_counterexample :
    (makeSolrQuery (fun _ => Except.error PyExc.httpError)
        : List Nat × Except PyExc PageResult)
      = ([4, 8, 16, 32], Except.error PyExc.httpError) := rfl

/-- C3 (amended): the retry wrapper retries exactly the `RequestException`
class — which includes `Timeout`, network errors, and also the status-code
`HTTPError` failures (rate limit, other 4xx/5xx) — up to 5 attempts with
backoff bounded between the floor 4 and the ceiling 60, propagating the final
failure after exhaustion; failures outside that class are not retried and
propagate immediately on the first attempt: the invalid-credential
`ValueError`, and the malformed (non-parseable) response body, whose synthetic
`HTTPError` is swallowed inside `query_solr` itself and surfaces as an
`AttributeError` when the handler dereferences its `response` of `None`. -/
theorem c3_retry_policy :
    (∀ (env : Nat → Except PyExc PageResult) (e : PyExc),
        env 1 = .error e → isRequestException e = false →
        makeSolrQuery env = ([], .error e))
    ∧ (∀ (env : Nat → Except PyExc PageResult) (errs : Nat → PyExc),
        (∀ n, 1 ≤ n → n ≤ 5 → env n = .error (errs n)) →
        (∀ n, 1 ≤ n → n ≤ 5 → isRequestException (errs n) = true) →
        (makeSolrQuery env).2 = .error (errs 5)
          ∧ (makeSolrQuery env).1.length = 4
          ∧ ∀ w ∈ (makeSolrQuery env).1, 4 ≤ w ∧ w ≤ 60)
    ∧ (∀ e, tenacityShouldRetry e = isRequestException e) := by
  refine ⟨?_, ?_, ?_⟩
  · intro env e h1 hreq
    have hsr : tenacityShouldRetry e = false := by
      cases e <;> simp_all [tenacityShouldRetry, isTimeoutExc, isRequestException]
    simp only [makeSolrQuery, tenacityAttempts, h1, hsr, Bool.false_eq_true,
      if_false]
  · intro env errs henv hreq
    have h1 := henv 1 (by omega) (by omega)
    have h2 := henv 2 (by omega) (by omega)
    have h3 := henv 3 (by omega) (by omega)
    have h4 := henv 4 (by omega) (by omega)
    have h5 := henv 5 (by omega) (by omega)
    have hs : ∀ n, 1 ≤ n → n ≤ 5 → tenacityShouldRetry (errs n) = true := by
      intro n hn1 hn5
      simp [tenacityShouldRetry, hreq n hn1 hn5]
    have hres : (makeSolrQuery env : List Nat × Except PyExc PageResult)
        = ([waitExponential 2 4 60 1, waitExponential 2 4 60 2,
            waitExponential 2 4 60 3, waitExponential 2 4 60 4],
           .error (errs 5)) := by
      simp only [makeSolrQuery, tenacityAttempts, h1, h2, h3, h4, h5,
        hs 1 (by omega) (by omega), hs 2 (by omega) (by omega),
        hs 3 (by omega) (by omega), hs 4 (by omega) (by omega), if_true]
    rw [hres]
    refine ⟨rfl, rfl, ?_⟩
    intro w hw
    simp only [List.mem_cons, List.mem_singleton] at hw
    rcases hw with h | h | h | h | h
    all_goals first
      | (rw [h]; exact waitExponential_bounds 2 _)
      | cases h
  · intro e
    cases e <;> rfl

/-- C8: a page size above the hard ceiling of 2000 fails at once with a
`ValueError` and no request is ever issued; at or below the ceiling the check
raises nothing and the run proceeds to its first request. -/
theorem c8_page_size_ceiling (qs : String) (savePath : Option String)
    (maxQ maxRows : Nat) (env : Nat → Except PyExc PageResult)
    (saveOk : Bool) :
    (2000 < maxRows →
      harvest_highlights qs savePath maxQ maxRows env saveOk
        = ⟨[], .error .valueError, none⟩)
    ∧ (maxRows ≤ 2000 →
      ∃ p, (harvest_highlights qs savePath maxQ maxRows env saveOk).trace.head?
        = some (.request p)) := by
  constructor
  · intro h
    simp [harvest_highlights, h]
  · intro h
    have hn : ¬ 2000 < maxRows := Nat.not_lt.mpr h
    cases savePath with
    | none =>
      cases henv : env 0 with
      | error e =>
        exact ⟨dryParams qs, by simp [harvest_highlights, hn, henv]⟩
      | ok p0 =>
        exact ⟨dryParams qs, by simp [harvest_highlights, hn, henv]⟩
    | some path =>
      cases henv : env 0 with
      | error e =>
        exact ⟨fullParams qs maxRows, by simp [harvest_highlights, hn, henv]⟩
      | ok p0 =>
        refine ⟨fullParams qs maxRows, ?_⟩
        simp only [harvest_highlights, hn, if_false, henv]
        rcases hrun : runLoop qs maxQ maxRows p0.numFound env
            ⟨1, 0, 1, processPage [] p0,
              [.request (fullParams qs maxRows)]⟩ with ⟨st, ex⟩
        obtain ⟨ext, hext, -⟩ := runLoop_trace_extends qs maxQ maxRows
          p0.numFound env _ ⟨1, 0, 1, processPage [] p0,
            [.request (fullParams qs maxRows)]⟩ le_rfl
        rw [hrun] at hext
        simp only at hext
        cases ex with
        | normal =>
          cases saveOk <;> simp [hext]
        | timeoutAbort =>
          cases saveOk <;> simp [hext]
        | hardFail e =>
          simp [hext]

/-- C1: in a full harvest in which no page request fails, the offsets sent to
the search API are exactly `0, P, 2P, ..., (N-1)P`, truncated when the
cumulative row count reaches the reported total, and they are strictly
increasing with no duplicates or gaps. -/
theorem c1_offsets (qs path : String) (maxQ maxRows : Nat)
    (pages : Nat → PageResult) (saveOk : Bool)
    (hq : 1 ≤ maxQ) (hr1 : 1 ≤ maxRows) (hr2 : maxRows ≤ 2000) :
    reqStarts ((harvest_highlights qs (some path) maxQ maxRows
        (fun k => Except.ok (pages k)) saveOk).trace)
      = ((List.range maxQ).filter
          (fun k => decide (k = 0 ∨ k * maxRows < (pages 0).numFound))).map
          (· * maxRows)
    ∧ (((List.range maxQ).filter
          (fun k => decide (k = 0 ∨ k * maxRows < (pages 0).numFound))).map
          (· * maxRows)).Pairwise (· < ·) := by
  constructor
  · have hstart := runLoop_allOk_starts qs maxQ maxRows (pages 0).numFound
      pages (maxQ - 1)
      ⟨1, 0, 1, processPage [] (pages 0),
        [.request (fullParams qs maxRows)]⟩ le_rfl
    simp only [harvest_highlights, Nat.not_lt.mpr hr2, if_false]
    rcases hrun : runLoop qs maxQ maxRows (pages 0).numFound
        (fun k => Except.ok (pages k))
        ⟨1, 0, 1, processPage [] (pages 0),
          [.request (fullParams qs maxRows)]⟩ with ⟨st, ex⟩
    rw [hrun] at hstart
    simp only at hstart
    have hform : reqStarts st.trace
        = ((List.range maxQ).filter
            (fun k => decide (k = 0 ∨ k * maxRows < (pages 0).numFound))).map
            (· * maxRows) := by
      rw [hstart, takeWhile_range'_eq_filter, filter_range_offsets _ _ _ hq]
      simp [reqStarts, fullParams]
    cases ex with
    | normal =>
      cases saveOk with
      | false =>
        show reqStarts (st.trace ++ [Ev.mkdirs path]) = _
        rw [reqStarts_append, hform]
        simp [reqStarts]
      | true =>
        show reqStarts (st.trace ++ [Ev.mkdirs path, Ev.write path]) = _
        rw [reqStarts_append, hform]
        simp [reqStarts]
    | timeoutAbort =>
      cases saveOk with
      | false =>
        show reqStarts (st.trace ++ [Ev.mkdirs path]) = _
        rw [reqStarts_append, hform]
        simp [reqStarts]
      | true =>
        show reqStarts (st.trace ++ [Ev.mkdirs path, Ev.write path]) = _
        rw [reqStarts_append, hform]
        simp [reqStarts]
    | hardFail e =>
      show reqStarts st.trace = _
      exact hform
  · rw [List.pairwise_map]
    refine List.Pairwise.imp ?_ (((List.pairwise_lt_range maxQ).filter _))
    intro a b hab
    exact Nat.mul_lt_mul_of_pos_right hab (by omega)

/-- C7: the paging loop always terminates — with its measure as fuel the
step-indexed loop reaches the loop's result — and it continues only under the
`while` guard: when the page ceiling is reached or the cumulative rows reach
the total it stops at once, and the third consecutive timeout ends it too. -/
theorem c7_termination :
    (∀ (qs : String) (maxQ rows total : Nat)
        (env : Nat → Except PyExc PageResult) (st : LoopSt) (n : Nat),
        loopMeasure maxQ st < n →
        runLoopFuel qs maxQ rows total env n st
          = some (runLoop qs maxQ rows total env st))
    ∧ (∀ (qs : String) (maxQ rows total : Nat)
        (env : Nat → Except PyExc PageResult) (st : LoopSt),
        ¬(st.page < maxQ ∧ st.page * rows < total) →
        runLoop qs maxQ rows total env st = (st, .normal))
    ∧ (∀ (qs : String) (maxQ rows total : Nat)
        (env : Nat → Except PyExc PageResult) (st : LoopSt),
        st.page < maxQ ∧ st.page * rows < total →
        env st.reqIdx = .error .timeout → 3 ≤ st.c + 1 →
        (runLoop qs maxQ rows total env st).2 = .timeoutAbort) := by
  refine ⟨?_, ?_, ?_⟩
  · intro qs maxQ rows total env st n h
    exact runLoopFuel_adequate qs maxQ rows total env n st h
  · intro qs maxQ rows total env st h
    exact runLoop_stop qs maxQ rows total env st h
  · intro qs maxQ rows total env st hg he hc
    rw [runLoop_timeout_abort qs maxQ rows total env st hg he hc]

/-- C2: the paging loop's consecutive-timeout counter resets on every
successful fetch; a timeout increments it, and below the threshold of 3 the
loop sleeps 5 seconds times the counter and retries the same page offset
(the page index does not move); at 3 the loop aborts with the accumulator
preserved, and the run then saves those partial results to the destination
path and returns normally. -/
theorem c2_timeout_tolerance :
    (∀ (qs : String) (maxQ rows total : Nat)
        (env : Nat → Except PyExc PageResult) (st : LoopSt) (p : PageResult),
        st.page < maxQ ∧ st.page * rows < total →
        env st.reqIdx = .ok p →
        runLoop qs maxQ rows total env st =
          runLoop qs maxQ rows total env
            ⟨st.page + 1, 0, st.reqIdx + 1, processPage st.acc p,
              st.trace ++
                [.request { fullParams qs rows with start := st.page * rows },
                 .sleep 2]⟩)
    ∧ (∀ (qs : String) (maxQ rows total : Nat)
        (env : Nat → Except PyExc PageResult) (st : LoopSt),
        st.page < maxQ ∧ st.page * rows < total →
        env st.reqIdx = .error .timeout → st.c + 1 < 3 →
        runLoop qs maxQ rows total env st =
          runLoop qs maxQ rows total env
            { st with
                c := st.c + 1
                reqIdx := st.reqIdx + 1
                trace := st.trace ++
                  [.request { fullParams qs rows with start := st.page * rows },
                   .sleep (5 * (st.c + 1))] })
    ∧ (∀ (qs : String) (maxQ rows total : Nat)
        (env : Nat → Except PyExc PageResult) (st : LoopSt),
        st.page < maxQ ∧ st.page * rows < total →
        env st.reqIdx = .error .timeout → 3 ≤ st.c + 1 →
        runLoop qs maxQ rows total env st =
          ({ st with
              c := st.c + 1
              reqIdx := st.reqIdx + 1
              trace := st.trace ++
                [.request
                    { fullParams qs rows with start := st.page * rows }] },
            .timeoutAbort))
    ∧ (∀ (qs path : String) (maxQ maxRows : Nat)
        (env : Nat → Except PyExc PageResult) (p0 : PageResult) (st : LoopSt),
        maxRows ≤ 2000 → env 0 = .ok p0 →
        runLoop qs maxQ maxRows p0.numFound env
            ⟨1, 0, 1, processPage [] p0,
              [.request (fullParams qs maxRows)]⟩ = (st, .timeoutAbort) →
        harvest_highlights qs (some path) maxQ maxRows env true
          = ⟨st.trace ++ [.mkdirs path, .write path], .ok (),
              some (path, st.acc)⟩) := by
  refine ⟨?_, ?_, ?_, ?_⟩
  · intro qs maxQ rows total env st p hg he
    exact runLoop_success qs maxQ rows total env st p hg he
  · intro qs maxQ rows total env st hg he hc
    exact runLoop_timeout_retry qs maxQ rows total env st hg he hc
  · intro qs maxQ rows total env st hg he hc
    exact runLoop_timeout_abort qs maxQ rows total env st hg he hc
  · intro qs path maxQ maxRows env p0 st hrows henv hrun
    simp [harvest_highlights, Nat.not_lt.mpr hrows, henv, hrun]

/-- C4: a non-timeout request failure inside the paging loop aborts the whole
harvest at once: the loop raises immediately, the exception propagates to the
caller, the save step is skipped and no output file is produced, however many
pages already succeeded. -/
theorem c4_non_timeout_hard_failure :
    (∀ (qs : String) (maxQ rows total : Nat)
        (env : Nat → Except PyExc PageResult) (st : LoopSt) (e : PyExc),
        st.page < maxQ ∧ st.page * rows < total →
        env st.reqIdx = .error e → e ≠ .timeout →
        runLoop qs maxQ rows total env st =
          ({ st with
              reqIdx := st.reqIdx + 1
              trace := st.trace ++
                [.request
                    { fullParams qs rows with start := st.page * rows }] },
            .hardFail e))
    ∧ (∀ (qs path : String) (maxQ maxRows : Nat)
        (env : Nat → Except PyExc PageResult) (saveOk : Bool)
        (p0 : PageResult) (st : LoopSt) (e : PyExc),
        maxRows ≤ 2000 → env 0 = .ok p0 →
        runLoop qs maxQ maxRows p0.numFound env
            ⟨1, 0, 1, processPage [] p0,
              [.request (fullParams qs maxRows)]⟩ = (st, .hardFail e) →
        harvest_highlights qs (some path) maxQ maxRows env saveOk
          = ⟨st.trace, .error e, none⟩
        ∧ ∀ pth, Ev.write pth ∉
            (harvest_highlights qs (some path) maxQ maxRows env saveOk).trace) := by
  constructor
  · intro qs maxQ rows total env st e hg he hne
    exact runLoop_hardFail qs maxQ rows total env st e hg he hne
  · intro qs path maxQ maxRows env saveOk p0 st e hrows henv hrun
    have hh : harvest_highlights qs (some path) maxQ maxRows env saveOk
        = ⟨st.trace, .error e, none⟩ := by
      simp [harvest_highlights, Nat.not_lt.mpr hrows, henv, hrun]
    refine ⟨hh, ?_⟩
    obtain ⟨ext, hext, hev⟩ := runLoop_trace_extends qs maxQ maxRows
      p0.numFound env _ ⟨1, 0, 1, processPage [] p0,
        [.request (fullParams qs maxRows)]⟩ le_rfl
    rw [hrun] at hext
    simp only at hext
    intro pth hmem
    rw [hh] at hmem
    simp only at hmem
    rw [hext] at hmem
    rcases List.mem_append.mp hmem with hm | hm
    · simp at hm
    · rcases hev _ hm with ⟨p, hp⟩ | ⟨s, hs⟩
      · cases hp
      · cases hs

theorem writeCount_append (a b : List Ev) :
    writeCount (a ++ b) = writeCount a + writeCount b := by
  simp [writeCount, List.filter_append]

theorem writeCount_loop_trace (qs : String) (maxQ maxRows : Nat)
    (env : Nat → Except PyExc PageResult) (p0 : PageResult) (st : LoopSt)
    (ex : LoopExit)
    (hrun : runLoop qs maxQ maxRows p0.numFound env
        ⟨1, 0, 1, processPage [] p0, [.request (fullParams qs maxRows)]⟩
        = (st, ex)) :
    writeCount st.trace = 0 := by
  obtain ⟨ext, hext, hev⟩ := runLoop_trace_extends qs maxQ maxRows
    p0.numFound env _ ⟨1, 0, 1, processPage [] p0,
      [.request (fullParams qs maxRows)]⟩ le_rfl
  rw [hrun] at hext
  simp only at hext
  rw [hext]
  simp only [writeCount, List.length_eq_zero]
  rw [List.filter_eq_nil_iff]
  intro e hme
  rcases List.mem_append.mp hme with hm | hm
  · simp at hm
    simp [hm]
  · rcases hev _ hm with ⟨p, hp⟩ | ⟨s, hs⟩
    · simp [hp]
    · simp [hs]

/-- C6: on any loop exit other than a hard failure (normal completion or the
consecutive-timeout abort), the accumulator is serialized exactly once to the
destination path, right after creating parent directories; when the write
fails with an I/O error, that error propagates to the caller and no file is
produced. -/
theorem c6_save_exactly_once (qs path : String) (maxQ maxRows : Nat)
    (env : Nat → Except PyExc PageResult) (p0 : PageResult) (st : LoopSt)
    (ex : LoopExit)
    (hrows : maxRows ≤ 2000) (henv : env 0 = .ok p0)
    (hrun : runLoop qs maxQ maxRows p0.numFound env
        ⟨1, 0, 1, processPage [] p0, [.request (fullParams qs maxRows)]⟩
        = (st, ex))
    (hex : ∀ e, ex ≠ .hardFail e) :
    harvest_highlights qs (some path) maxQ maxRows env true
      = ⟨st.trace ++ [.mkdirs path, .write path], .ok (),
          some (path, st.acc)⟩
    ∧ writeCount
        ((harvest_highlights qs (some path) maxQ maxRows env true).trace) = 1
    ∧ harvest_highlights qs (some path) maxQ maxRows env false
      = ⟨st.trace ++ [.mkdirs path], .error .ioError, none⟩ := by
  have hwc0 := writeCount_loop_trace qs maxQ maxRows env p0 st ex hrun
  cases ex with
  | hardFail e => exact absurd rfl (hex e)
  | normal =>
    have h1 : harvest_highlights qs (some path) maxQ maxRows env true
        = ⟨st.trace ++ [.mkdirs path, .write path], .ok (),
            some (path, st.acc)⟩ := by
      simp [harvest_highlights, Nat.not_lt.mpr hrows, henv, hrun]
    refine ⟨h1, ?_, ?_⟩
    · rw [h1]
      show writeCount (st.trace ++ [.mkdirs path, .write path]) = 1
      rw [writeCount_append, hwc0]
      rfl
    · simp [harvest_highlights, Nat.not_lt.mpr hrows, henv, hrun]
  | timeoutAbort =>
    have h1 : harvest_highlights qs (some path) maxQ maxRows env true
        = ⟨st.trace ++ [.mkdirs path, .write path], .ok (),
            some (path, st.acc)⟩ := by
      simp [harvest_highlights, Nat.not_lt.mpr hrows, henv, hrun]
    refine ⟨h1, ?_, ?_⟩
    · rw [h1]
      show writeCount (st.trace ++ [.mkdirs path, .write path]) = 1
      rw [writeCount_append, hwc0]
      rfl
    · simp [harvest_highlights, Nat.not_lt.mpr hrows, henv, hrun]

/-- C5: the accumulator's keys are unique identifiers, each seen on some
fetched page; after processing a page, every document record of that page has
an entry whose `source` sub-record is exactly the bibliographic fields copied
from that record; and when an identifier reappears on a later page (with a
highlight entry and a document record), that page's fragments and `source`
overwrite whatever the accumulator held before. -/
theorem c5_accumulator_invariants :
    (∀ pages : List PageResult, (accKeys (pages.foldl processPage [])).Nodup)
    ∧ (∀ (pages : List PageResult) (k : String),
        k ∈ accKeys (pages.foldl processPage []) → ∃ p ∈ pages, k ∈ pageIds p)
    ∧ (∀ (acc : HAcc) (p : PageResult) (d : DocRec),
        (p.docs.map DocRec.id).Nodup → d ∈ p.docs →
        ∃ e, lookupA (processPage acc p) d.id = some e
          ∧ e.source = some d.toSource)
    ∧ (∀ (acc : HAcc) (p : PageResult) (k : String) (f : Frags) (d : DocRec),
        (p.highlighting.map Prod.fst).Nodup → (p.docs.map DocRec.id).Nodup →
        (k, f) ∈ p.highlighting → d ∈ p.docs → d.id = k →
        lookupA (processPage acc p) k = some ⟨f, some d.toSource⟩) := by
  refine ⟨?_, ?_, ?_, ?_⟩
  · intro pages
    exact nodup_accKeys_foldl_processPage pages [] (by simp [accKeys])
  · intro pages k h
    rcases mem_accKeys_foldl_processPage pages [] k h with hm | hm
    · simp [accKeys] at hm
    · exact hm
  · intro acc p d hnd hd
    exact ⟨_, lookupA_foldl_addSource p.docs _ d hnd hd, rfl⟩
  · intro acc p k f d hhn hdn hkf hd hid
    have hbase := lookupA_updateHighlighting p.highlighting acc k f hhn hkf
    have hfin := lookupA_foldl_addSource p.docs
      (updateHighlighting acc p.highlighting) d hdn hd
    rw [hid, hbase] at hfin
    simpa [processPage] using hfin

/-- A concrete document record used to exercise the theorems. -/
def docA : DocRec :=
  ⟨"idA", "bibA", "titleA", "authorA", "2020-01", "article", "openaccess",
    none, none⟩

/-- A second concrete document record. -/
def docB : DocRec :=
  ⟨"idB", "bibB", "titleB", "authorB", "2021-02", "article", "openaccess",
    some "10.1000/x", none⟩

/-- A concrete page: 12 total matches, one document, one highlight entry. -/
def pageA : PageResult :=
  ⟨12, [docA], [("idA", [("body", ["fragA"])])]⟩

/-- A later concrete page on which `idA` reappears with fresh fragments. -/
def pageB : PageResult :=
  ⟨12, [docB, docA],
    [("idB", [("body", ["fragB"])]), ("idA", [("abstract", ["fragA2"])])]⟩

/-- An environment in which every request succeeds with `pageA`. -/
def envOk : Nat → Except PyExc PageResult :=
  fun _ => .ok pageA

/-- An environment in which the first request succeeds and every later one
times out. -/
def envFirstOkThenTimeout : Nat → Except PyExc PageResult :=
  fun k => if k = 0 then .ok pageA else .error .timeout

/-- An environment in which the first request succeeds and the second fails
with an HTTP status error. -/
def envFirstOkThenHttpError : Nat → Except PyExc PageResult :=
  fun k => if k = 0 then .ok pageA else .error .httpError

theorem c9_dry_run_witness :
    harvest_highlights "pds" none 3 5 envOk true
      = ⟨[.request (dryParams "pds")], .ok (), none⟩
    ∧ (dryParams "pds").rows = 5
    ∧ (dryParams "pds").hl = "false"
    ∧ (dryParams "pds").fl = "author,title,pubyear,doi"
    ∧ (dryParams "pds").start = 0 :=
  c9_dry_run "pds" 3 5 envOk true pageA (by decide) rfl

theorem c10_first_request_timeout_witness :
    harvest_highlights "pds" (some "out.json") 3 5
        (fun _ => .error .timeout) true
      = ⟨[.request (fullParams "pds" 5)], .error .timeout, none⟩ :=
  c10_first_request_timeout "pds" "out.json" 3 5
    (fun _ => .error .timeout) true (by decide) rfl

theorem c3_retry_policy_witness :
    makeSolrQuery (fun _ => Except.error PyExc.valueError)
      = (([], .error .valueError) : List Nat × Except PyExc PageResult)
    ∧ makeSolrQuery (fun _ => Except.error PyExc.attributeError)
      = (([], .error .attributeError) : List Nat × Except PyExc PageResult)
    ∧ ((makeSolrQuery (fun _ => Except.error PyExc.timeout)
          : List Nat × Except PyExc PageResult).2 = .error .timeout
        ∧ (makeSolrQuery (fun _ => Except.error PyExc.timeout)
            : List Nat × Except PyExc PageResult).1.length = 4
        ∧ ∀ w ∈ (makeSolrQuery (fun _ => Except.error PyExc.timeout)
            : List Nat × Except PyExc PageResult).1, 4 ≤ w ∧ w ≤ 60) :=
  ⟨c3_retry_policy.1 (fun _ => Except.error PyExc.valueError) .valueError
      rfl rfl,
   c3_retry_policy.1 (fun _ => Except.error PyExc.attributeError)
      .attributeError rfl rfl,
   c3_retry_policy.2.1 (fun _ => Except.error PyExc.timeout)
      (fun _ => PyExc.timeout) (fun _ _ _ => rfl) (fun _ _ _ => rfl)⟩

theorem c8_page_size_ceiling_witness :
    harvest_highlights "pds" (some "out.json") 3 2001 envOk true
      = ⟨[], .error .valueError, none⟩
    ∧ ∃ p, (harvest_highlights "pds" (some "out.json") 3 5 envOk
        true).trace.head? = some (.request p) :=
  ⟨(c8_page_size_ceiling "pds" (some "out.json") 3 2001 envOk true).1
      (by decide),
   (c8_page_size_ceiling "pds" (some "out.json") 3 5 envOk true).2
      (by decide)⟩

theorem c1_offsets_witness :
    (1 : Nat) ≤ 3 ∧ (1 : Nat) ≤ 5 ∧ (5 : Nat) ≤ 2000
    ∧ (reqStarts ((harvest_highlights "pds" (some "out.json") 3 5
          (fun k => Except.ok pageA) true).trace)
        = ((List.range 3).filter
            (fun k => decide (k = 0 ∨ k * 5 < pageA.numFound))).map (· * 5)
      ∧ (((List.range 3).filter
            (fun k => decide (k = 0 ∨ k * 5 < pageA.numFound))).map
            (· * 5)).Pairwise (· < ·)) :=
  ⟨by decide, by decide, by decide,
   c1_offsets "pds" "out.json" 3 5 (fun _ => pageA) true
     (by decide) (by decide) (by decide)⟩

theorem c5_accumulator_invariants_witness :
    (accKeys ([pageA, pageB].foldl processPage [])).Nodup
    ∧ (∃ p ∈ [pageA, pageB], "idA" ∈ pageIds p)
    ∧ (∃ e, lookupA (processPage [] pageB) docA.id = some e
        ∧ e.source = some docA.toSource)
    ∧ lookupA (processPage (processPage [] pageA) pageB) "idA"
        = some ⟨[("abstract", ["fragA2"])], some docA.toSource⟩ :=
  ⟨c5_accumulator_invariants.1 [pageA, pageB],
   c5_accumulator_invariants.2.1 [pageA, pageB] "idA" (by decide),
   c5_accumulator_invariants.2.2.1 [] pageB docA (by decide) (by decide),
   c5_accumulator_invariants.2.2.2 (processPage [] pageA) pageB "idA"
     [("abstract", ["fragA2"])] docA (by decide) (by decide) (by decide)
     (by decide) rfl⟩

theorem c6_save_exactly_once_witness :
    harvest_highlights "pds" (some "out.json") 1 5 envOk true
      = ⟨[Ev.request (fullParams "pds" 5), Ev.mkdirs "out.json",
          Ev.write "out.json"], .ok (),
          some ("out.json", processPage [] pageA)⟩
    ∧ writeCount ((harvest_highlights "pds" (some "out.json") 1 5 envOk
        true).trace) = 1
    ∧ harvest_highlights "pds" (some "out.json") 1 5 envOk false
      = ⟨[Ev.request (fullParams "pds" 5), Ev.mkdirs "out.json"],
          .error .ioError, none⟩ := by
  have hrun : runLoop "pds" 1 5 pageA.numFound envOk
      ⟨1, 0, 1, processPage [] pageA, [.request (fullParams "pds" 5)]⟩
      = (⟨1, 0, 1, processPage [] pageA,
          [.request (fullParams "pds" 5)]⟩, .normal) :=
    runLoop_stop _ _ _ _ _ _ (by decide)
  exact c6_save_exactly_once "pds" "out.json" 1 5 envOk pageA _ _
    (by decide) rfl hrun (fun e h => LoopExit.noConfusion h)

theorem c7_termination_witness :
    loopMeasure 1 (⟨1, 0, 1, [], []⟩ : LoopSt) < 5
    ∧ runLoopFuel "pds" 1 5 12 envOk 5 ⟨1, 0, 1, [], []⟩
        = some (runLoop "pds" 1 5 12 envOk ⟨1, 0, 1, [], []⟩)
    ∧ runLoop "pds" 1 5 12 envOk ⟨1, 0, 1, [], []⟩
        = (⟨1, 0, 1, [], []⟩, .normal)
    ∧ (runLoop "pds" 5 1 12 (fun _ => .error .timeout)
        ⟨1, 2, 1, [], []⟩).2 = .timeoutAbort :=
  ⟨by decide,
   c7_termination.1 "pds" 1 5 12 envOk ⟨1, 0, 1, [], []⟩ 5 (by decide),
   c7_termination.2.1 "pds" 1 5 12 envOk ⟨1, 0, 1, [], []⟩ (by decide),
   c7_termination.2.2 "pds" 5 1 12 (fun _ => .error .timeout)
     ⟨1, 2, 1, [], []⟩ (by decide) rfl (by decide)⟩

/-- Loop state reached by the witness run of the timeout-tolerance policy:
three consecutive timeouts at page 1, each retrying offset 1. -/
def stW : LoopSt :=
  ⟨1, 3, 4, processPage [] pageA,
    [.request (fullParams "pds" 1),
     .request { fullParams "pds" 1 with start := 1 }, .sleep 5,
     .request { fullParams "pds" 1 with start := 1 }, .sleep 10,
     .request { fullParams "pds" 1 with start := 1 }]⟩

theorem c2_timeout_tolerance_witness :
    harvest_highlights "pds" (some "out.json") 5 1 envFirstOkThenTimeout true
      = ⟨stW.trace ++ [.mkdirs "out.json", .write "out.json"], .ok (),
          some ("out.json", stW.acc)⟩ := by
  have hrun : runLoop "pds" 5 1 pageA.numFound envFirstOkThenTimeout
      ⟨1, 0, 1, processPage [] pageA, [.request (fullParams "pds" 1)]⟩
      = (stW, .timeoutAbort) := by
    rw [runLoop_timeout_retry _ _ _ _ _ _ (by decide) rfl (by decide)]
    rw [runLoop_timeout_retry _ _ _ _ _ _ (by decide) rfl (by decide)]
    rw [runLoop_timeout_abort _ _ _ _ _ _ (by decide) rfl (by decide)]
    rfl
  exact c2_timeout_tolerance.2.2.2 "pds" "out.json" 5 1 envFirstOkThenTimeout
    pageA stW (by decide) rfl hrun

theorem c4_non_timeout_hard_failure_witness :
    harvest_highlights "pds" (some "out.json") 5 1 envFirstOkThenHttpError true
      = ⟨[.request (fullParams "pds" 1),
          .request { fullParams "pds" 1 with start := 1 }],
         .error .httpError, none⟩
    ∧ Ev.write "out.json" ∉
        (harvest_highlights "pds" (some "out.json") 5 1
          envFirstOkThenHttpError true).trace := by
  have hrun : runLoop "pds" 5 1 pageA.numFound envFirstOkThenHttpError
      ⟨1, 0, 1, processPage [] pageA, [.request (fullParams "pds" 1)]⟩
      = (⟨1, 0, 2, processPage [] pageA,
          [.request (fullParams "pds" 1),
           .request { fullParams "pds" 1 with start := 1 }]⟩,
         .hardFail .httpError) := by
    rw [runLoop_hardFail _ _ _ _ _ _ _ (by decide) rfl (by decide)]
    rfl
  have h := c4_non_timeout_hard_failure.2 "pds" "out.json" 5 1
    envFirstOkThenHttpError true pageA _ .httpError (by decide) rfl hrun
  exact ⟨h.1, h.2 "out.json"⟩
